import Mathlib

/-!
Shallow embedding of `interactive-llama` (`src/main.rs`), a small LLM coding
agent: a path sandbox (`ensure_safe_relative`, `resolve_workspace_path`), a
tolerant markdown/JSON protocol extractor (`extract_json_from_markdown`), a
tool-call parser (serde internally tagged `ToolCall`), a sandboxed filesystem
executor (`execute_tool`), and the conversation loop (`Agent::run`).

Strings are modelled as Lean `String`/`List Char`; all string helpers are hand
rolled structural recursions so that concrete instances reduce in the kernel.
Rust `str::trim` (Unicode whitespace) is modelled by `Char.isWhitespace`
(ASCII whitespace), which agrees on every input appearing in this development.
The filesystem is modelled as an explicit state (`FSState`) of directories and
text files keyed by normalized absolute-path components; OS error strings
(`"Is a directory (os error 21)"` etc.) stand in for the platform-dependent
`io::Error` display texts.
-/

set_option maxRecDepth 4000

/-- Splits a list of characters at every `/` separator, keeping empty
segments, mirroring how a Unix path string decomposes into slash-separated
segments. -/
def splitSegsAux : List Char → List Char → List String
  | [], acc => [String.mk acc.reverse]
  | c :: rest, acc =>
    if c == '/' then String.mk acc.reverse :: splitSegsAux rest []
    else splitSegsAux rest (c :: acc)

/-- All `/`-separated segments of a path string (empty segments included). -/
def splitSegs (s : String) : List String :=
  splitSegsAux s.data []

/-- Boolean string-prefix test (Rust `str::starts_with`). -/
def strStartsWith (s pre : String) : Bool :=
  pre.data.isPrefixOf s.data

/-- Boolean string-suffix test (Rust `str::ends_with`). -/
def strEndsWith (s suf : String) : Bool :=
  suf.data.isSuffixOf s.data

/-- Boolean substring test: `strContainsSub hay needle` is true when `needle`
occurs contiguously inside `hay`. Used to state what an error message does or
does not name. -/
def hasPrefixSomewhere (needle : List Char) : List Char → Bool
  | [] => needle.isEmpty
  | c :: rest => needle.isPrefixOf (c :: rest) || hasPrefixSomewhere needle rest

/-- String-level wrapper of `hasPrefixSomewhere`. -/
def strContainsSub (hay needle : String) : Bool :=
  hasPrefixSomewhere needle.data hay.data

/-- Drops whitespace from both ends of a character list (Rust `str::trim`,
restricted to ASCII whitespace). -/
def trimChars (l : List Char) : List Char :=
  ((l.dropWhile Char.isWhitespace).reverse.dropWhile Char.isWhitespace).reverse

/-- The backtick character, built numerically. -/
def backtickChar : Char := Char.ofNat 96

/-- Removes every trailing backtick (Rust `str::trim_end_matches` with a
backtick pattern). -/
def dropTicksEnd (l : List Char) : List Char :=
  (l.reverse.dropWhile (fun c => c == backtickChar)).reverse

/-- A component of a Unix path in the sense of Rust `std::path::Component`
(the Windows prefix variant cannot arise on Unix and is omitted). -/
inductive PathComponent where
  | rootDir
  | curDir
  | parentDir
  | normal (s : String)
deriving DecidableEq, Repr

/-- Classifies one nonempty, non-`.` segment as a Rust path component:
`..` becomes `ParentDir`, anything else is `Normal`. -/
def mkComp (s : String) : PathComponent :=
  if s = ".." then PathComponent.parentDir else PathComponent.normal s

/-- The non-root components of a path, from its nonempty segments: Rust keeps
a leading `.` of a relative path as `CurDir` and drops every other `.`
segment. -/
def relCompsOf (isAbs : Bool) : List String → List PathComponent
  | [] => []
  | first :: rest =>
    (if first = "." then (if isAbs then [] else [PathComponent.curDir])
     else [mkComp first])
      ++ (rest.filter (fun c => c != ".")).map mkComp

/-- Rust `Path::components` on Unix: a leading `/` yields `RootDir`, empty
segments (doubled or trailing separators) are dropped, `.` segments are
dropped except as the head of a relative path, `..` yields `ParentDir`. -/
def componentsOf (s : String) : List PathComponent :=
  let isAbs := strStartsWith s "/"
  let segs := (splitSegs s).filter (fun c => c != "")
  (if isAbs then [PathComponent.rootDir] else []) ++ relCompsOf isAbs segs

/-- The fixed workspace root from `main.rs`. -/
def WORKSPACE_ROOT : String := "/home/pc2dev/ai_workspace"

/-- `ensure_safe_relative` from `main.rs`: iterates over the path's
components and fails on the first `ParentDir`, with a message naming the
offending input; otherwise succeeds. -/
def ensure_safe_relative (rel : String) : Except String Unit :=
  if PathComponent.parentDir ∈ componentsOf rel then
    Except.error ("Path must not contain \x27..\x27 components: " ++ rel)
  else Except.ok ()

/-- Rust `Path::join` on Unix: an absolute right-hand side replaces the
left-hand side entirely; otherwise the two are concatenated, inserting a `/`
separator when the left-hand side does not already end in one. -/
def path_join (root rel : String) : String :=
  if strStartsWith rel "/" then rel
  else if strEndsWith root "/" then root ++ rel
  else root ++ "/" ++ rel

/-- `resolve_workspace_path` from `main.rs`: validates the path with
`ensure_safe_relative` and then returns `WORKSPACE_ROOT.join(rel)`. -/
def resolve_workspace_path (rel : String) : Except String String :=
  match ensure_safe_relative rel with
  | Except.error e => Except.error e
  | Except.ok _ => Except.ok (path_join WORKSPACE_ROOT rel)

/-- `extract_json_from_markdown` from `main.rs`: trims the reply; if it opens
with a ```` ```json ```` fence, drops that token, one following line break,
trailing backticks and whitespace; if it opens with a generic ```` ``` ````
fence, additionally skips an optional language tag up to the first line
break; otherwise returns the trimmed reply unchanged. -/
def extract_json_from_markdown (reply : String) : String :=
  let trimmed := trimChars reply.data
  if "```json".data.isPrefixOf trimmed then
    let inner := trimmed.drop 7
    let inner := match inner with
      | c :: rest => if c == '\n' || c == '\r' then rest else c :: rest
      | [] => []
    let inner := trimChars inner
    let inner := trimChars (dropTicksEnd inner)
    String.mk inner
  else if "```".data.isPrefixOf trimmed then
    let inner := trimmed.drop 3
    let inner := match inner.findIdx? (fun c => c == '\n') with
      | some i => inner.drop i
      | none => inner
    let inner := match inner with
      | c :: rest => if c == '\n' || c == '\r' then rest else c :: rest
      | [] => []
    let inner := trimChars inner
    let inner := trimChars (dropTicksEnd inner)
    String.mk inner
  else String.mk trimmed

/-- JSON values (`serde_json::Value`), with integer numbers only: the only
numbers this program ever builds or reads are integers. -/
inductive Json where
  | null
  | bool (b : Bool)
  | num (n : Int)
  | str (s : String)
  | arr (xs : List Json)
  | obj (fields : List (String × Json))

/-- `ToolCall` from `main.rs`: the closed set of tool intents, internally
tagged by the JSON field `tool` with tags `list_dir`, `read_file`,
`write_file`. -/
inductive ToolCall where
  | ListDir (path : String)
  | ReadFile (path : String)
  | WriteFile (path : String) (content : String)
deriving DecidableEq, Repr

/-- `ToolResult` from `main.rs`: the outcome fed back to the model, tagged by
`status` as `ok` or `error`. -/
inductive ToolResult where
  | Ok (result : Json)
  | Error (message : String)

/-- First value bound to a key in a JSON object's field list. -/
def getField : List (String × Json) → String → Option Json
  | [], _ => none
  | (k, v) :: rest, key => if k = key then some v else getField rest key

/-- Serde's internally-tagged deserialization of `ToolCall` from a JSON
value: non-objects fail, the `tool` field must be a string equal to one of
the three tags, each variant requires its string fields (`path`, and
`content` for `write_file`), unknown extra fields are ignored. -/
def parseToolCall (j : Json) : Except String ToolCall :=
  match j with
  | Json.obj fields =>
    match getField fields "tool" with
    | some (Json.str t) =>
      if t = "list_dir" then
        match getField fields "path" with
        | some (Json.str p) => Except.ok (ToolCall.ListDir p)
        | _ => Except.error "missing or mistyped field path"
      else if t = "read_file" then
        match getField fields "path" with
        | some (Json.str p) => Except.ok (ToolCall.ReadFile p)
        | _ => Except.error "missing or mistyped field path"
      else if t = "write_file" then
        match getField fields "path" with
        | some (Json.str p) =>
          match getField fields "content" with
          | some (Json.str c) => Except.ok (ToolCall.WriteFile p c)
          | _ => Except.error "missing or mistyped field content"
        | _ => Except.error "missing or mistyped field path"
      else Except.error ("unknown variant " ++ t)
    | some _ => Except.error "tag field tool is not a string"
    | none => Except.error "missing field tool"
  | _ => Except.error "expected a JSON object"

/-- Lowercase hexadecimal digit, as used by `serde_json` escapes. -/
def hexDigitChar (n : Nat) : Char :=
  if n < 10 then Char.ofNat (48 + n) else Char.ofNat (87 + n)

/-- `serde_json` escaping of one character inside a JSON string literal. -/
def escapeChar (c : Char) : String :=
  if c == '"' then "\\\""
  else if c == '\\' then "\\\\"
  else if c == '\x08' then "\\b"
  else if c == '\x0c' then "\\f"
  else if c == '\n' then "\\n"
  else if c == '\r' then "\\r"
  else if c == '\t' then "\\t"
  else if c.toNat < 32 then
    String.mk ['\\', 'u', '0', '0', hexDigitChar (c.toNat / 16), hexDigitChar (c.toNat % 16)]
  else String.mk [c]

/-- `serde_json` escaping of a whole string. -/
def escapeJsonString (s : String) : String :=
  String.join (s.data.map escapeChar)

mutual

/-- Compact `serde_json` rendering of a JSON value. -/
def renderJson : Json → String
  | Json.null => "null"
  | Json.bool b => if b then "true" else "false"
  | Json.num n => toString n
  | Json.str s => "\"" ++ escapeJsonString s ++ "\""
  | Json.arr xs => "[" ++ renderJsonList xs ++ "]"
  | Json.obj fields => "\x7b" ++ renderJsonObj fields ++ "\x7d"

/-- Comma-separated rendering of JSON array elements. -/
def renderJsonList : List Json → String
  | [] => ""
  | [j] => renderJson j
  | j :: js => renderJson j ++ "," ++ renderJsonList js

/-- Comma-separated rendering of JSON object fields. -/
def renderJsonObj : List (String × Json) → String
  | [] => ""
  | [(k, v)] => "\"" ++ escapeJsonString k ++ "\":" ++ renderJson v
  | (k, v) :: rest => "\"" ++ escapeJsonString k ++ "\":" ++ renderJson v ++ "," ++ renderJsonObj rest

end

/-- `serde_json::to_string` on a `ToolResult`: the `status` tag is serialized
first (serde internally-tagged order), then the variant's field. -/
def serializeToolResult : ToolResult → String
  | ToolResult.Ok r => "\x7b\"status\":\"ok\",\"result\":" ++ renderJson r ++ "\x7d"
  | ToolResult.Error m => "\x7b\"status\":\"error\",\"message\":\"" ++ escapeJsonString m ++ "\"\x7d"

/-- Filesystem state: the set of existing directories and the text files,
both keyed by normalized absolute-path components (empty and `.` segments
removed, as the kernel resolves them; symlinks are out of scope, as in the
spec). `[]` is the root directory `/`. -/
structure FSState where
  dirs : List (List String)
  files : List (List String × String)

/-- Normalized path components of an absolute path string, as the kernel
resolves them: empty and `.` segments are ignored. -/
def absComponents (s : String) : List String :=
  (splitSegs s).filter (fun c => c != "" && c != ".")

/-- First-match lookup in the file table. -/
def lookupF : List (List String × String) → List String → Option String
  | [], _ => none
  | (k, v) :: rest, p => if k = p then some v else lookupF rest p

/-- Overwrite-or-append update of the file table. -/
def insertF : List (List String × String) → List String → String → List (List String × String)
  | [], k, v => [(k, v)]
  | (k0, v0) :: rest, k, v =>
    if k0 = k then (k, v) :: rest else (k0, v0) :: insertF rest k v

/-- Every leading slice of a component list, from `[]` up to the whole
list: the ancestor directories `mkdir -p` must ensure exist. -/
def prefixesOf : List String → List (List String)
  | [] => [[]]
  | x :: xs => [] :: (prefixesOf xs).map (fun q => x :: q)

/-- Rust `fs::create_dir_all`: succeeds (creating every missing ancestor)
unless some ancestor path already exists as a regular file. -/
def create_dir_all (fs : FSState) (d : List String) : Except String FSState :=
  if (prefixesOf d).any (fun q => (lookupF fs.files q).isSome) then
    Except.error "File exists (os error 17)"
  else Except.ok (FSState.mk (prefixesOf d ++ fs.dirs) fs.files)

/-- Rust `fs::write`: overwrites or creates the file with the full content;
fails if the target is a directory, or if the parent directory is missing or
is a regular file. -/
def fsWrite (fs : FSState) (p : List String) (content : String) : Except String FSState :=
  if p ∈ fs.dirs then Except.error "Is a directory (os error 21)"
  else if p.dropLast ∈ fs.dirs then
    Except.ok (FSState.mk fs.dirs (insertF fs.files p content))
  else if (lookupF fs.files p.dropLast).isSome then
    Except.error "Not a directory (os error 20)"
  else Except.error "No such file or directory (os error 2)"

/-- Rust `fs::read_to_string`: returns the file's content, or fails when the
path is a directory or does not exist. -/
def fsRead (fs : FSState) (p : List String) : Except String String :=
  match lookupF fs.files p with
  | some c => Except.ok c
  | none =>
    if p ∈ fs.dirs then Except.error "Is a directory (os error 21)"
    else Except.error "No such file or directory (os error 2)"

/-- Direct children of a directory, each with its name and its `is_dir` /
`is_file` flags (independently computed booleans, as in the source). The
listing order is unspecified by the OS; this model derives it from the state
lists. -/
def childEntries (fs : FSState) (p : List String) : List (String × Bool × Bool) :=
  let dnames := fs.dirs.filterMap (fun d => if d.dropLast = p then d.getLast? else none)
  let fnames := fs.files.filterMap (fun kv => if kv.1.dropLast = p then kv.1.getLast? else none)
  dnames.map (fun n => (n, true, false)) ++ fnames.map (fun n => (n, false, true))

/-- Rust `fs::read_dir` plus the per-entry `file_type` calls: fails when the
path is not an existing directory. -/
def fsReadDir (fs : FSState) (p : List String) : Except String (List (String × Bool × Bool)) :=
  if p ∈ fs.dirs then Except.ok (childEntries fs p)
  else if (lookupF fs.files p).isSome then Except.error "Not a directory (os error 20)"
  else Except.error "No such file or directory (os error 2)"

/-- Display string of the resolved path's parent (Rust `Path::parent` plus
`display()`), used in the directory-creation error message. -/
def joinWithSlash : List String → String
  | [] => ""
  | [x] => x
  | x :: xs => x ++ "/" ++ joinWithSlash xs

/-- The parent directory named in the `Failed to create dirs` message. -/
def parentStr (p : String) : String :=
  "/" ++ joinWithSlash (absComponents p).dropLast

/-- `execute_tool` from `main.rs`, with the filesystem passed explicitly:
resolves the path through the sandbox, performs the operation, and packages
the outcome as a `ToolResult`, never failing outright. Returns the outcome
together with the (possibly updated) filesystem. -/
def execute_tool (fs : FSState) (call : ToolCall) : ToolResult × FSState :=
  match call with
  | ToolCall.ListDir path =>
    match resolve_workspace_path path with
    | Except.error msg => (ToolResult.Error msg, fs)
    | Except.ok p =>
      match fsReadDir fs (absComponents p) with
      | Except.ok entries =>
        (ToolResult.Ok (Json.arr (entries.map (fun e =>
          Json.obj [("name", Json.str e.1), ("is_dir", Json.bool e.2.1),
                    ("is_file", Json.bool e.2.2)]))), fs)
      | Except.error cause =>
        (ToolResult.Error ("read_dir failed on " ++ p ++ ": " ++ cause), fs)
  | ToolCall.ReadFile path =>
    match resolve_workspace_path path with
    | Except.error msg => (ToolResult.Error msg, fs)
    | Except.ok p =>
      match fsRead fs (absComponents p) with
      | Except.ok content => (ToolResult.Ok (Json.obj [("content", Json.str content)]), fs)
      | Except.error cause =>
        (ToolResult.Error ("Failed to read " ++ p ++ ": " ++ cause), fs)
  | ToolCall.WriteFile path content =>
    match resolve_workspace_path path with
    | Except.error msg => (ToolResult.Error msg, fs)
    | Except.ok p =>
      match (if absComponents p = [] then Except.ok fs
             else match create_dir_all fs (absComponents p).dropLast with
                  | Except.ok fs1 => Except.ok fs1
                  | Except.error cause =>
                    Except.error ("Failed to create dirs " ++ parentStr p ++ ": " ++ cause)) with
      | Except.error msg => (ToolResult.Error msg, fs)
      | Except.ok fs1 =>
        match fsWrite fs1 (absComponents p) content with
        | Except.ok fs2 => (ToolResult.Ok (Json.obj [("written", Json.bool true)]), fs2)
        | Except.error cause =>
          (ToolResult.Error ("Failed to write " ++ p ++ ": " ++ cause), fs1)

/-- `ChatMessage` from `main.rs`. -/
structure ChatMessage where
  role : String
  content : String
deriving DecidableEq, Repr

/-- Outcome of one agent run: `ok` carries the final natural-language answer
together with the message history and filesystem at termination (the source
prints the answer and returns `Ok(())`); `transportError` models `call_llm`
failing, which aborts the run via `?`. -/
inductive RunOutcome where
  | ok (finalAnswer : String) (messages : List ChatMessage) (fs : FSState)
  | transportError (messages : List ChatMessage) (fs : FSState)

/-- `Agent::run` from `main.rs`, driven by the list of successive model
replies (the transport yields one reply per loop iteration and fails fatally
when none is left) and over an explicit filesystem. `decode` abstracts
`serde_json::from_str::<ToolCall>` on the extracted candidate: the loop's
behavior depends only on whether it returns a tool call or an error. On
decode success the three messages (assistant marker, raw reply, tool result)
are appended and the loop continues; on decode failure the raw reply is the
final answer. -/
def Agent.run (decode : String → Except String ToolCall) :
    List String → List ChatMessage → FSState → RunOutcome
  | [], msgs, fs => RunOutcome.transportError msgs fs
  | reply :: rest, msgs, fs =>
    match decode (extract_json_from_markdown reply) with
    | Except.ok call =>
      Agent.run decode rest
        (msgs ++ [ChatMessage.mk "assistant" "TOOL CALL",
                  ChatMessage.mk "assistant" reply,
                  ChatMessage.mk "user"
                    ("TOOL_RESULT: " ++ serializeToolResult (execute_tool fs call).1)])
        (execute_tool fs call).2
    | Except.error _ => RunOutcome.ok reply msgs fs

/-- A decoder that always recognizes the fixed tool call `tc`; used to
exercise the loop's decode-success branch at concrete inputs. -/
def okDecoder (tc : ToolCall) : String → Except String ToolCall :=
  fun _ => Except.ok tc

/-- A decoder that always fails; used to exercise the loop's decode-failure
branch at concrete inputs. -/
def errDecoder : String → Except String ToolCall :=
  fun _ => Except.error "not a tool call"

/-- A filesystem in which the workspace root and its ancestors exist and no
files do. -/
def fs0 : FSState :=
  FSState.mk [[], ["home"], ["home", "pc2dev"], ["home", "pc2dev", "ai_workspace"]] []

/-- `fs0` with one regular file `f` directly under the workspace root. -/
def fsF : FSState :=
  FSState.mk fs0.dirs [(["home", "pc2dev", "ai_workspace", "f"], "data")]

/-- A segment maps to the `ParentDir` component exactly when it is `..`. -/
theorem mkComp_eq_parentDir (c : String) :
    mkComp c = PathComponent.parentDir ↔ c = ".." := by
  by_cases h : c = ".." <;> simp [mkComp, h]

/-- The non-root components contain `ParentDir` exactly when some segment is
`..`. -/
theorem parentDir_mem_relCompsOf (isAbs : Bool) (segs : List String) :
    PathComponent.parentDir ∈ relCompsOf isAbs segs ↔ ".." ∈ segs := by
  cases segs with
  | nil => simp [relCompsOf]
  | cons first rest =>
    have hdd : ((".." : String) != ".") = true := by decide
    by_cases hf : first = "."
    · subst hf
      have hne : (".." : String) ≠ "." := by decide
      cases isAbs <;>
        simp [relCompsOf, List.mem_map, List.mem_filter, mkComp_eq_parentDir, hne, hdd]
    · simp only [relCompsOf, if_neg hf, List.mem_append, List.mem_cons, List.mem_singleton,
        List.mem_map, List.mem_filter, mkComp_eq_parentDir]
      constructor
      · rintro ((h | h) | ⟨a, ⟨ha, _⟩, rfl⟩)
        · exact Or.inl ((mkComp_eq_parentDir first).mp h.symm).symm
        · exact absurd h (List.not_mem_nil _)
        · exact Or.inr ha
      · rintro (h | h)
        · exact Or.inl (Or.inl ((mkComp_eq_parentDir first).mpr h.symm).symm)
        · exact Or.inr ⟨"..", ⟨h, hdd⟩, rfl⟩

/-- `Path::components` yields a `ParentDir` exactly when some `/`-separated
segment of the path is `..`: the source's sandbox check is equivalent to the
purely syntactic segment test. -/
theorem parentDir_mem_componentsOf (s : String) :
    PathComponent.parentDir ∈ componentsOf s ↔ ".." ∈ splitSegs s := by
  have hdd : ((".." : String) != "") = true := by decide
  cases h : strStartsWith s "/" <;>
    simp [componentsOf, h, parentDir_mem_relCompsOf, List.mem_filter, hdd]

/-- Looking up a key right after writing it returns the written value. -/
theorem lookupF_insertF (l : List (List String × String)) (k : List String) (v : String) :
    lookupF (insertF l k v) k = some v := by
  induction l with
  | nil => simp [insertF, lookupF]
  | cons kv rest ih =>
    obtain ⟨k0, v0⟩ := kv
    by_cases h : k0 = k
    · simp [insertF, h, lookupF]
    · simp [insertF, h, lookupF, ih]

/-- Claim C1: every input path containing a `..` segment is rejected by
`ensure_safe_relative` with an `InvalidPath`-style error whose message names
the offending input; the check is purely syntactic over path components. -/
theorem claim_C1_parent_component_rejected (rel : String)
    (h : ".." ∈ splitSegs rel) :
    ensure_safe_relative rel =
      Except.error ("Path must not contain \x27..\x27 components: " ++ rel) := by
  unfold ensure_safe_relative
  rw [if_pos ((parentDir_mem_componentsOf rel).mpr h)]

theorem claim_C1_witness :
    ensure_safe_relative "a/../b" =
      Except.error ("Path must not contain \x27..\x27 components: " ++ "a/../b") :=
  claim_C1_parent_component_rejected "a/../b" (by decide)

/-- Claim C2: an absolute input path without `..` segments passes the sandbox
and resolves to itself, because `Path::join` discards the left-hand root when
the right-hand side is absolute; absolute paths are not rejected. -/
theorem claim_C2_absolute_paths_resolve_to_themselves (rel : String)
    (habs : strStartsWith rel "/" = true) (hsafe : ".." ∉ splitSegs rel) :
    resolve_workspace_path rel = Except.ok rel := by
  unfold resolve_workspace_path ensure_safe_relative
  rw [if_neg (fun hmem => hsafe ((parentDir_mem_componentsOf rel).mp hmem))]
  unfold path_join
  rw [if_pos habs]

theorem claim_C2_witness :
    resolve_workspace_path "/etc/passwd" = Except.ok "/etc/passwd" ∧
    strStartsWith "/etc/passwd" WORKSPACE_ROOT = false :=
  ⟨claim_C2_absolute_paths_resolve_to_themselves "/etc/passwd" (by decide) (by decide),
   by decide⟩

/-- Claim C3: every input path without `..` segments resolves successfully to
exactly `WORKSPACE_ROOT.join(path)`; the computation is a pure function of
the strings, with no canonicalization and no filesystem access. -/
theorem claim_C3_resolution_is_pure_join (rel : String)
    (hsafe : ".." ∉ splitSegs rel) :
    resolve_workspace_path rel = Except.ok (path_join WORKSPACE_ROOT rel) := by
  unfold resolve_workspace_path ensure_safe_relative
  rw [if_neg (fun hmem => hsafe ((parentDir_mem_componentsOf rel).mp hmem))]

theorem claim_C3_witness :
    resolve_workspace_path "a/b.txt" = Except.ok (path_join WORKSPACE_ROOT "a/b.txt") ∧
    path_join WORKSPACE_ROOT "a/b.txt" = "/home/pc2dev/ai_workspace/a/b.txt" :=
  ⟨claim_C3_resolution_is_pure_join "a/b.txt" (by decide), by decide⟩

/-- Claim C5: the protocol extractor (a total function by construction)
yields exactly the payload for a ```` ```json ```` fence, a generic
```` ``` ```` fence, and raw JSON surrounded by whitespace. -/
theorem claim_C5_extractor_recovers_payload :
    extract_json_from_markdown "```json\n\x7b\"a\":1\x7d\n```" = "\x7b\"a\":1\x7d" ∧
    extract_json_from_markdown "```\n\x7b\"a\":1\x7d\n```" = "\x7b\"a\":1\x7d" ∧
    extract_json_from_markdown "  \x7b\"a\":1\x7d  " = "\x7b\"a\":1\x7d" :=
  ⟨rfl, rfl, rfl⟩

/-- Claim C7: whenever decoding the extracted candidate fails, the loop
treats the raw model reply as the final answer and terminates successfully,
leaving the history and the filesystem untouched; the parse failure is never
surfaced as an error. -/
theorem claim_C7_parse_failure_terminates_ok
    (decode : String → Except String ToolCall) (reply : String)
    (rest : List String) (msgs : List ChatMessage) (fs : FSState) (e : String)
    (h : decode (extract_json_from_markdown reply) = Except.error e) :
    Agent.run decode (reply :: rest) msgs fs = RunOutcome.ok reply msgs fs := by
  simp only [Agent.run]
  rw [h]

theorem claim_C7_witness :
    Agent.run errDecoder ["hello"] [] fs0 = RunOutcome.ok "hello" [] fs0 :=
  claim_C7_parse_failure_terminates_ok errDecoder "hello" [] [] fs0 "not a tool call" rfl

/-- Claim C10: a loop iteration with a successful tool parse leaves the
existing messages unchanged and appends exactly three messages in order (the
assistant marker, the raw reply as an assistant message, and a user message
carrying the serialized outcome prefixed as a tool result) before looping. -/
theorem claim_C10_append_only_three_messages
    (decode : String → Except String ToolCall) (reply : String)
    (rest : List String) (msgs : List ChatMessage) (fs : FSState) (tc : ToolCall)
    (h : decode (extract_json_from_markdown reply) = Except.ok tc) :
    Agent.run decode (reply :: rest) msgs fs =
      Agent.run decode rest
        (msgs ++ [ChatMessage.mk "assistant" "TOOL CALL",
                  ChatMessage.mk "assistant" reply,
                  ChatMessage.mk "user"
                    ("TOOL_RESULT: " ++ serializeToolResult (execute_tool fs tc).1)])
        (execute_tool fs tc).2 := by
  simp only [Agent.run]
  rw [h]

theorem claim_C10_witness :
    Agent.run (okDecoder (ToolCall.ListDir "src")) ["list please"] [] fs0 =
      Agent.run (okDecoder (ToolCall.ListDir "src")) []
        [ChatMessage.mk "assistant" "TOOL CALL",
         ChatMessage.mk "assistant" "list please",
         ChatMessage.mk "user"
           ("TOOL_RESULT: " ++ serializeToolResult (execute_tool fs0 (ToolCall.ListDir "src")).1)]
        (execute_tool fs0 (ToolCall.ListDir "src")).2 :=
  claim_C10_append_only_three_messages (okDecoder (ToolCall.ListDir "src"))
    "list please" [] [] fs0 (ToolCall.ListDir "src") rfl

/-- Claim C8: tool-level failures are local and recoverable. A sandbox
violation makes each of the three tools return a `ToolOutcome` `Error` value
and leave the filesystem untouched; reading a nonexistent file likewise
returns an `Error`; and whenever a decoded tool call produced an `Error`
outcome, the loop appends the serialized error as a conversation message and
continues — no tool execution aborts the run. -/
theorem claim_C8_tool_errors_recoverable :
    (∀ (fs : FSState) (rel e c : String), ensure_safe_relative rel = Except.error e →
      execute_tool fs (ToolCall.ListDir rel) = (ToolResult.Error e, fs) ∧
      execute_tool fs (ToolCall.ReadFile rel) = (ToolResult.Error e, fs) ∧
      execute_tool fs (ToolCall.WriteFile rel c) = (ToolResult.Error e, fs)) ∧
    (∀ (fs : FSState) (rel p : String), resolve_workspace_path rel = Except.ok p →
      lookupF fs.files (absComponents p) = none → absComponents p ∉ fs.dirs →
      execute_tool fs (ToolCall.ReadFile rel) =
        (ToolResult.Error ("Failed to read " ++ p ++ ": " ++ "No such file or directory (os error 2)"),
         fs)) ∧
    (∀ (decode : String → Except String ToolCall) (fs : FSState) (msgs : List ChatMessage)
       (reply : String) (rest : List String) (tc : ToolCall) (m : String) (fs2 : FSState),
      decode (extract_json_from_markdown reply) = Except.ok tc →
      execute_tool fs tc = (ToolResult.Error m, fs2) →
      Agent.run decode (reply :: rest) msgs fs =
        Agent.run decode rest
          (msgs ++ [ChatMessage.mk "assistant" "TOOL CALL",
                    ChatMessage.mk "assistant" reply,
                    ChatMessage.mk "user"
                      ("TOOL_RESULT: " ++ serializeToolResult (ToolResult.Error m))])
          fs2) := by
  refine ⟨?_, ?_, ?_⟩
  · intro fs rel e c h
    refine ⟨?_, ?_, ?_⟩ <;> simp [execute_tool, resolve_workspace_path, h]
  · intro fs rel p hres hlook hdir
    simp [execute_tool, hres, fsRead, hlook, hdir]
  · intro decode fs msgs reply rest tc m fs2 hdec hexec
    simp only [Agent.run, hdec, hexec]

theorem claim_C8_witness :
    execute_tool fs0 (ToolCall.ReadFile "../x") =
      (ToolResult.Error ("Path must not contain \x27..\x27 components: ../x"), fs0) ∧
    Agent.run (okDecoder (ToolCall.ReadFile "../x")) ["go"] [] fs0 =
      Agent.run (okDecoder (ToolCall.ReadFile "../x")) []
        [ChatMessage.mk "assistant" "TOOL CALL",
         ChatMessage.mk "assistant" "go",
         ChatMessage.mk "user"
           ("TOOL_RESULT: " ++
             serializeToolResult
               (ToolResult.Error ("Path must not contain \x27..\x27 components: ../x")))]
        fs0 :=
  ⟨(claim_C8_tool_errors_recoverable.1 fs0 "../x"
      ("Path must not contain \x27..\x27 components: ../x") "c" rfl).2.1,
   claim_C8_tool_errors_recoverable.2.2 (okDecoder (ToolCall.ReadFile "../x")) fs0 [] "go" []
     (ToolCall.ReadFile "../x") ("Path must not contain \x27..\x27 components: ../x") fs0 rfl
     ((claim_C8_tool_errors_recoverable.1 fs0 "../x"
        ("Path must not contain \x27..\x27 components: ../x") "c" rfl).2.1)⟩

/-- Claim C4 counterexample: the relative path `.` is accepted by the
sandbox, yet writing to it fails (its resolved target is the workspace root
directory itself), so the subsequent read does not return the written
content: the round-trip property does not hold for every sandbox-accepted
path. -/
theorem claim_C4_counterexample :
    ensure_safe_relative "." = Except.ok () ∧
    (execute_tool (execute_tool fs0 (ToolCall.WriteFile "." "x")).2 (ToolCall.ReadFile ".")).1 ≠
      ToolResult.Ok (Json.obj [("content", Json.str "x")]) := by
  refine ⟨rfl, ?_⟩
  intro h
  have e : (execute_tool (execute_tool fs0 (ToolCall.WriteFile "." "x")).2
        (ToolCall.ReadFile ".")).1 =
      ToolResult.Error
        ("Failed to read " ++ "/home/pc2dev/ai_workspace/." ++ ": " ++
          "Is a directory (os error 21)") := rfl
  rw [e] at h
  exact ToolResult.noConfusion h

/-- Claim C4 amended: for every path `P` accepted by the sandbox and every
content `C`, if executing `WriteFile{P, C}` succeeds (returns an `Ok`
outcome), then executing `ReadFile{P}` on the resulting filesystem returns
an `Ok` outcome whose content is exactly `C`. -/
theorem claim_C4_roundtrip (P C : String) (fs : FSState) (j : Json)
    (h : (execute_tool fs (ToolCall.WriteFile P C)).1 = ToolResult.Ok j) :
    (execute_tool (execute_tool fs (ToolCall.WriteFile P C)).2 (ToolCall.ReadFile P)).1 =
      ToolResult.Ok (Json.obj [("content", Json.str C)]) := by
  simp only [execute_tool] at h
  split at h
  next msg heq => simp at h
  next p heq =>
    split at h
    next msg heq2 => simp at h
    next fs1 heq2 =>
      split at h
      next fs2 heq3 =>
        have ew : execute_tool fs (ToolCall.WriteFile P C) =
            (ToolResult.Ok (Json.obj [("written", Json.bool true)]), fs2) := by
          simp only [execute_tool, heq, heq2, heq3]
        rw [ew]
        unfold fsWrite at heq3
        split at heq3
        · exact absurd heq3 (by simp)
        · split at heq3
          · injection heq3 with hh
            subst hh
            simp [execute_tool, heq, fsRead, lookupF_insertF]
          · split at heq3 <;> exact absurd heq3 (by simp)
      next msg heq3 => simp at h

theorem claim_C4_witness :
    (execute_tool (execute_tool fs0 (ToolCall.WriteFile "greeting.txt" "hello world")).2
        (ToolCall.ReadFile "greeting.txt")).1 =
      ToolResult.Ok (Json.obj [("content", Json.str "hello world")]) :=
  claim_C4_roundtrip "greeting.txt" "hello world" fs0
    (Json.obj [("written", Json.bool true)]) rfl

/-- Claim C9 counterexample: when directory creation fails (here `f` exists
as a regular file), the `Error` message names the parent directory
`/home/pc2dev/ai_workspace/f` and the cause, but does not contain the
resolved path `/home/pc2dev/ai_workspace/f/g.txt`, contradicting the claim
that every write failure message includes the resolved path. -/
theorem claim_C9_counterexample :
    (execute_tool fsF (ToolCall.WriteFile "f/g.txt" "y")).1 =
      ToolResult.Error
        ("Failed to create dirs " ++ "/home/pc2dev/ai_workspace/f" ++ ": " ++
          "File exists (os error 17)") ∧
    resolve_workspace_path "f/g.txt" = Except.ok "/home/pc2dev/ai_workspace/f/g.txt" ∧
    strContainsSub
      "Failed to create dirs /home/pc2dev/ai_workspace/f: File exists (os error 17)"
      "/home/pc2dev/ai_workspace/f/g.txt" = false :=
  ⟨rfl, rfl, by decide⟩

/-- Claim C9 amended: executing `WriteFile` on a sandbox-accepted path that
resolves to `p` either succeeds — returning the `written` confirmation,
making every ancestor directory of `p` exist, and binding `p` to exactly the
given content (create-or-overwrite, no partial or append semantics) — or
returns an `Error` whose message names the parent directory of `p` and the
cause (directory-creation failure) or `p` itself and the cause (write
failure). -/
theorem claim_C9_write_semantics (fs : FSState) (P C p : String)
    (hres : resolve_workspace_path P = Except.ok p) :
    (∀ j, (execute_tool fs (ToolCall.WriteFile P C)).1 = ToolResult.Ok j →
      j = Json.obj [("written", Json.bool true)] ∧
      lookupF (execute_tool fs (ToolCall.WriteFile P C)).2.files (absComponents p) = some C ∧
      ∀ q ∈ prefixesOf (absComponents p).dropLast,
        q ∈ (execute_tool fs (ToolCall.WriteFile P C)).2.dirs) ∧
    (∀ m, (execute_tool fs (ToolCall.WriteFile P C)).1 = ToolResult.Error m →
      (∃ cause, m = "Failed to create dirs " ++ parentStr p ++ ": " ++ cause) ∨
      (∃ cause, m = "Failed to write " ++ p ++ ": " ++ cause)) := by
  constructor
  · intro j h
    simp only [execute_tool, hres] at h
    split at h
    next msg heq2 => simp at h
    next fs1 heq2 =>
      split at h
      next fs2 heq3 =>
        simp only [ToolResult.Ok.injEq] at h
        have ew : execute_tool fs (ToolCall.WriteFile P C) =
            (ToolResult.Ok (Json.obj [("written", Json.bool true)]), fs2) := by
          simp only [execute_tool, hres, heq2, heq3]
        rw [ew]
        refine ⟨h.symm, ?_⟩
        unfold fsWrite at heq3
        split at heq3
        · exact absurd heq3 (by simp)
        · split at heq3
          next hpar =>
            injection heq3 with hh
            subst hh
            constructor
            · simp [lookupF_insertF]
            · intro q hq
              show q ∈ fs1.dirs
              by_cases hc : absComponents p = []
              · rw [hc] at hq
                simp only [List.dropLast_nil, prefixesOf, List.mem_singleton] at hq
                subst hq
                rw [hc] at hpar
                simpa using hpar
              · rw [if_neg hc] at heq2
                split at heq2
                next fs1x heq4 =>
                  injection heq2 with h1
                  subst h1
                  unfold create_dir_all at heq4
                  split at heq4
                  · exact absurd heq4 (by simp)
                  · injection heq4 with h2
                    rw [← h2]
                    simp only [List.mem_append]
                    exact Or.inl hq
                next cause heq4 => exact absurd heq2 (by simp)
          next hpar =>
            split at heq3 <;> exact absurd heq3 (by simp)
      next cause heq3 => simp at h
  · intro m h
    simp only [execute_tool, hres] at h
    split at h
    next msg heq2 =>
      simp only [ToolResult.Error.injEq] at h
      subst h
      by_cases hc : absComponents p = []
      · rw [if_pos hc] at heq2
        exact absurd heq2 (by simp)
      · rw [if_neg hc] at heq2
        split at heq2
        next fs1 heq4 => exact absurd heq2 (by simp)
        next cause heq4 =>
          injection heq2 with h2
          exact Or.inl ⟨cause, h2.symm⟩
    next fs1 heq2 =>
      split at h
      next fs2 heq3 => simp at h
      next cause heq3 =>
        simp only [ToolResult.Error.injEq] at h
        exact Or.inr ⟨cause, h.symm⟩

theorem claim_C9_witness :
    lookupF (execute_tool fs0 (ToolCall.WriteFile "sub/dir/file.txt" "hi")).2.files
        (absComponents "/home/pc2dev/ai_workspace/sub/dir/file.txt") = some "hi" ∧
    ["home", "pc2dev", "ai_workspace", "sub", "dir"] ∈
      (execute_tool fs0 (ToolCall.WriteFile "sub/dir/file.txt" "hi")).2.dirs := by
  have h := (claim_C9_write_semantics fs0 "sub/dir/file.txt" "hi"
      "/home/pc2dev/ai_workspace/sub/dir/file.txt" rfl).1
      (Json.obj [("written", Json.bool true)]) rfl
  exact ⟨h.2.1, h.2.2 ["home", "pc2dev", "ai_workspace", "sub", "dir"] (by decide)⟩

/-- Claim C6: decoding a JSON value into a `ToolCall` succeeds exactly for
objects whose `tool` field is the string `list_dir`, `read_file` or
`write_file` and which carry the variant's required string fields (`path`,
plus `content` for `write_file`); every other value — unknown or mistyped
tag, missing or mistyped required field, non-object — fails with a parse
error. -/
theorem claim_C6_parser_accepts_exactly_wellformed (j : Json) :
    (∃ tc, parseToolCall j = Except.ok tc) ↔
      (∃ fields, j = Json.obj fields ∧
        ((getField fields "tool" = some (Json.str "list_dir") ∧
            ∃ p, getField fields "path" = some (Json.str p)) ∨
         (getField fields "tool" = some (Json.str "read_file") ∧
            ∃ p, getField fields "path" = some (Json.str p)) ∨
         (getField fields "tool" = some (Json.str "write_file") ∧
            (∃ p, getField fields "path" = some (Json.str p)) ∧
            (∃ c, getField fields "content" = some (Json.str c))))) := by
  constructor
  · rintro ⟨tc, h⟩
    unfold parseToolCall at h
    split at h
    case _ fields =>
      refine ⟨fields, rfl, ?_⟩
      split at h
      case _ t heqtool =>
        split at h
        · next ht =>
            subst ht
            split at h
            case _ p heqpath => exact Or.inl ⟨heqtool, p, heqpath⟩
            case _ => simp at h
        · split at h
          · next ht =>
              subst ht
              split at h
              case _ p heqpath => exact Or.inr (Or.inl ⟨heqtool, p, heqpath⟩)
              case _ => simp at h
          · split at h
            · next ht =>
                subst ht
                split at h
                case _ p heqpath =>
                  split at h
                  case _ c heqcontent =>
                    exact Or.inr (Or.inr ⟨heqtool, ⟨p, heqpath⟩, c, heqcontent⟩)
                  case _ => simp at h
                case _ => simp at h
            · simp at h
      case _ v heqtool _ => simp at h
      case _ heqtool => simp at h
    case _ => simp at h
  · rintro ⟨fields, rfl, hshape⟩
    rcases hshape with ⟨htool, p, hpath⟩ | ⟨htool, p, hpath⟩ | ⟨htool, ⟨p, hpath⟩, c, hcontent⟩
    · exact ⟨ToolCall.ListDir p, by simp [parseToolCall, htool, hpath]⟩
    · refine ⟨ToolCall.ReadFile p, ?_⟩
      have hne : ("read_file" : String) ≠ "list_dir" := by decide
      simp [parseToolCall, htool, hpath, hne]
    · refine ⟨ToolCall.WriteFile p c, ?_⟩
      have hne1 : ("write_file" : String) ≠ "list_dir" := by decide
      have hne2 : ("write_file" : String) ≠ "read_file" := by decide
      simp [parseToolCall, htool, hpath, hcontent, hne1, hne2]
